import Mathlib

/-!
Shallow embedding of the magnetic-pendulum simulator (`src/main.rs` and `src/par.rs`).
IEEE floating-point numbers (`f32` in `main.rs`, `f64` in `par.rs`) are modelled as
real numbers; `sqrt` of a negative radicand, which is NaN in the code, is modelled by
`Real.sqrt` (which returns 0 there) and is called out wherever it matters.
`par.rs` operates on whole `ndarray` grids, but every array operation it performs
(`vector3_matrix` broadcasts, componentwise arithmetic, `sum_axis(Axis(2))`,
`normalize`) acts on each grid cell independently, so its step is embedded as the
corresponding per-cell function on one position/velocity vector.
-/

namespace Magpen

/-- 2D vector (glam `Vec2`), components modelled as reals. -/
@[ext]
structure Vec2 where
  x : ℝ
  y : ℝ

/-- 3D vector (glam `Vec3` / `DVec3`), components modelled as reals. -/
@[ext]
structure Vec3 where
  x : ℝ
  y : ℝ
  z : ℝ

noncomputable instance : Add Vec2 := ⟨fun a b => ⟨a.x + b.x, a.y + b.y⟩⟩

noncomputable instance : Sub Vec2 := ⟨fun a b => ⟨a.x - b.x, a.y - b.y⟩⟩

noncomputable instance : Add Vec3 := ⟨fun a b => ⟨a.x + b.x, a.y + b.y, a.z + b.z⟩⟩

noncomputable instance : Sub Vec3 := ⟨fun a b => ⟨a.x - b.x, a.y - b.y, a.z - b.z⟩⟩

/-- glam `vec * scalar` (componentwise). -/
noncomputable def Vec2.mulScalar (v : Vec2) (s : ℝ) : Vec2 := ⟨v.x * s, v.y * s⟩

/-- glam `vec / scalar` (componentwise). -/
noncomputable def Vec2.divScalar (v : Vec2) (s : ℝ) : Vec2 := ⟨v.x / s, v.y / s⟩

/-- glam `Vec2::length`: `sqrt (x*x + y*y)`. -/
noncomputable def Vec2.length (v : Vec2) : ℝ := Real.sqrt (v.x * v.x + v.y * v.y)

/-- glam `Vec2::distance`: length of the difference. -/
noncomputable def Vec2.distance (a b : Vec2) : ℝ := (a - b).length

/-- glam `vec * scalar` (componentwise). -/
noncomputable def Vec3.mulScalar (v : Vec3) (s : ℝ) : Vec3 := ⟨v.x * s, v.y * s, v.z * s⟩

/-- glam `scalar * vec` (componentwise). -/
noncomputable def Vec3.smul (s : ℝ) (v : Vec3) : Vec3 := ⟨s * v.x, s * v.y, s * v.z⟩

/-- glam `vec / scalar` (componentwise). -/
noncomputable def Vec3.divScalar (v : Vec3) (s : ℝ) : Vec3 := ⟨v.x / s, v.y / s, v.z / s⟩

/-- glam `Vec3::dot`. -/
noncomputable def Vec3.dot (a b : Vec3) : ℝ := a.x * b.x + a.y * b.y + a.z * b.z

/-- glam `Vec3::length_squared` = `self.dot(self)`. -/
noncomputable def Vec3.length_squared (v : Vec3) : ℝ := Vec3.dot v v

/-- glam `Vec3::length`. -/
noncomputable def Vec3.length (v : Vec3) : ℝ := Real.sqrt v.length_squared

/-- glam `Vec3::normalize` = `self * self.length_recip()`; on the zero vector the code
produces non-finite components, the real model yields `1/0 = 0` componentwise. -/
noncomputable def Vec3.normalize (v : Vec3) : Vec3 := v.mulScalar (1 / v.length)

/-- glam `Vec3::normalize_or_zero`: the zero vector instead of a failure when the
input has zero length. -/
noncomputable def Vec3.normalize_or_zero (v : Vec3) : Vec3 :=
  if v.length = 0 then ⟨0, 0, 0⟩ else v.mulScalar (1 / v.length)

/-- glam `Vec3::xy`. -/
noncomputable def Vec3.xy (v : Vec3) : Vec2 := ⟨v.x, v.y⟩

/-- Rust `f32::to_degrees`: multiply by `180 / pi`. -/
noncomputable def toDegrees (r : ℝ) : ℝ := r * (180 / Real.pi)

/-- main.rs `angle3`: `(x1.dot(x2) * x1.length_recip() * x2.length_recip()).acos()`.
The code does not clamp the argument of `acos`; `Real.arccos` is total. -/
noncomputable def angle3 (x1 x2 : Vec3) : ℝ :=
  Real.arccos (Vec3.dot x1 x2 * (1 / x1.length) * (1 / x2.length))

/-- main.rs `Magnet` (and par.rs `Magnet`): position plus an `Rgb<u8>` colour tag. -/
structure Magnet where
  position : Vec3
  color : ℕ × ℕ × ℕ

/-- Junk magnet standing for the out-of-bounds panic of `magnets[i]`; it is only ever
used at indices past the end of the list, which the theorems exclude. -/
def defaultMagnet : Magnet := ⟨⟨0, 0, 0⟩, (0, 0, 0)⟩

/-- main.rs `PhysicsContext`. -/
structure PhysicsContext where
  gravity : ℝ
  pixels_per_meter : ℝ
  magnet_coefficent : ℝ
  time_precision : ℝ
  speed : ℝ

/-- main.rs `PhysicsContext::new`. -/
noncomputable def PhysicsContext.new : PhysicsContext :=
  { gravity := 10
    pixels_per_meter := 3000
    magnet_coefficent := 0.0001
    time_precision := 0.001
    speed := 1 }

/-- main.rs `Ball`. -/
structure Ball where
  mass : ℝ
  pos : Vec2
  rope_len : ℝ
  rope_pivot : Vec3
  velocity : Vec3
  air_friction : ℝ
  magnets : List Magnet
  last_positions : List Vec2

/-- main.rs `Ball::ball_height` (lines 85-90): `rope_pivot.z - sqrt((c-a)*(c+a))`
with `a` the horizontal distance to the pivot and `c` the rope length. -/
noncomputable def Ball.ball_height (b : Ball) : ℝ :=
  let a := b.pos.distance b.rope_pivot.xy
  let c := b.rope_len
  b.rope_pivot.z - Real.sqrt ((c - a) * (c + a))

/-- The gravity force of main.rs `Ball::move_step` (line 94):
`vec3(0., 0., -1. * gravity * mass)`. -/
noncomputable def gravity_force (physics_ctx : PhysicsContext) (b : Ball) : Vec3 :=
  ⟨0, 0, -1 * physics_ctx.gravity * b.mass⟩

/-- Projection of `force_vector` onto `rope_vector` from main.rs `Ball::move_step`
(line 109): `(force_vector.dot(rope_vector) / rope_vector.length_squared()) * rope_vector`. -/
noncomputable def projectOntoRope (force_vector rope_vector : Vec3) : Vec3 :=
  Vec3.smul (force_vector.dot rope_vector / rope_vector.length_squared) rope_vector

/-- The constraint slice of main.rs `Ball::move_step` (lines 109-117): project the
raw force onto the rope vector, negate the projection when the angle between it and
the raw force is below 90 degrees, and add it back. -/
noncomputable def constrainForceMain (force_vector rope_vector : Vec3) : Vec3 :=
  let force_projected := projectOntoRope force_vector rope_vector
  let force_projected :=
    if toDegrees (angle3 force_projected force_vector) < 90 then force_projected.mulScalar (-1)
    else force_projected
  force_vector + force_projected

/-- main.rs `Ball::move_step` (lines 92-122). -/
noncomputable def Ball.move_step (physics_ctx : PhysicsContext) (b : Ball) : Ball :=
  let ball_pos : Vec3 := ⟨b.pos.x, b.pos.y, b.ball_height⟩
  let friction_force :=
    ((b.velocity.normalize_or_zero.mulScalar b.velocity.length_squared).mulScalar
        b.air_friction).mulScalar (-1)
  let magnetic_force := b.magnets.foldl (fun acc magnet =>
    let magnet_force := magnet.position - ball_pos
    let magnitude := physics_ctx.magnet_coefficent / magnet_force.length_squared
    acc + magnet_force.normalize.mulScalar magnitude) ⟨0, 0, 0⟩
  let force_vector := gravity_force physics_ctx b + magnetic_force + friction_force
  let rope_vector := b.rope_pivot - ball_pos
  let force := constrainForceMain force_vector rope_vector
  let a := force.divScalar b.mass
  let velocity := b.velocity + a.mulScalar physics_ctx.time_precision
  let pos := b.pos + velocity.xy.mulScalar physics_ctx.time_precision
  { b with velocity := velocity, pos := pos }

/-- Number of micro-steps of main.rs `Ball::move_over_time` (line 132):
`(time_delta * speed / time_precision).floor() as u32`. `Int.toNat` models the
saturation of the `as u32` cast at zero for negative inputs. -/
noncomputable def stepCount (time_delta : ℝ) (physics_ctx : PhysicsContext) : ℕ :=
  (⌊time_delta * physics_ctx.speed / physics_ctx.time_precision⌋).toNat

/-- Number of micro-steps of main.rs `Ball::move_over_speed1` (line 125):
`(time_delta / time_precision).floor() as u32`. -/
noncomputable def stepCountSpeed1 (time_delta : ℝ) (physics_ctx : PhysicsContext) : ℕ :=
  (⌊time_delta / physics_ctx.time_precision⌋).toNat

/-- main.rs `Ball::move_over_speed1` (lines 124-129): run `move_step` in a loop. -/
noncomputable def Ball.move_over_speed1 (time_delta : ℝ) (physics_ctx : PhysicsContext)
    (b : Ball) : Ball :=
  (Ball.move_step physics_ctx)^[stepCountSpeed1 time_delta physics_ctx] b

/-- main.rs `Ball::move_over_time` (lines 131-136): run `move_step` in a loop. -/
noncomputable def Ball.move_over_time (time_delta : ℝ) (physics_ctx : PhysicsContext)
    (b : Ball) : Ball :=
  (Ball.move_step physics_ctx)^[stepCount time_delta physics_ctx] b

/-- The loop of main.rs `Ball::move_over_time_save_positions` (lines 140-143): step
`n` times, collecting `self.pos` after each step. -/
noncomputable def Ball.stepsRecord (physics_ctx : PhysicsContext) :
    ℕ → Ball → Ball × List Vec2
  | 0, b => (b, [])
  | Nat.succ n, b =>
    let b1 := b.move_step physics_ctx
    let r := Ball.stepsRecord physics_ctx n b1
    (r.1, b1.pos :: r.2)

/-- main.rs `Ball::move_over_time_save_positions` (lines 138-146). -/
noncomputable def Ball.move_over_time_save_positions (time_delta : ℝ)
    (physics_ctx : PhysicsContext) (b : Ball) : Ball :=
  let r := Ball.stepsRecord physics_ctx (stepCount time_delta physics_ctx) b
  { r.1 with last_positions := r.2 }

/-- main.rs `world_position_no_ctx` (lines 39-41): `(pos - center) / pixels_per_meter`. -/
noncomputable def world_position_no_ctx (pos center : Vec2) (physics_ctx : PhysicsContext) :
    Vec2 :=
  (pos - center).divScalar physics_ctx.pixels_per_meter

/-- Distance from `end_pos` to the horizontal position of magnet `i`, as read by the
scan of main.rs `create_square_image` (line 344): `end_pos.distance(magnet.position.xy())`. -/
noncomputable def mainDist (magnets : List Magnet) (end_pos : Vec2) (i : ℕ) : ℝ :=
  Vec2.distance end_pos ((magnets.getD i defaultMagnet).position.xy)

/-- The linear scan of main.rs `create_square_image` (lines 341-349), iterating `k`
more indices starting at `i` with current best index `closest` and current minimum
`min_distance`; only a strictly smaller distance replaces the minimum. -/
noncomputable def scanMin (d : ℕ → ℝ) : ℕ → ℕ → ℕ → ℝ → ℕ × ℝ
  | 0, _, closest, min_distance => (closest, min_distance)
  | Nat.succ k, i, closest, min_distance =>
    if d i < min_distance then scanMin d k (i + 1) i (d i)
    else scanMin d k (i + 1) closest min_distance

/-- The `closest_magnet` computation of main.rs `create_square_image` (lines 341-349):
start from index 0 and scan the remaining magnets (`.skip(1)`). The code indexes
`magnets[0]` and would panic on an empty list; that unreachable case returns 0 here. -/
noncomputable def closest_magnet (magnets : List Magnet) (end_pos : Vec2) : ℕ :=
  match magnets with
  | [] => 0
  | _ :: rest => (scanMin (mainDist magnets end_pos) rest.length 1 0
      (mainDist magnets end_pos 0)).1

/-- main.rs `setup_square_scene` (lines 303-323). -/
noncomputable def setup_square_scene (x : ℕ) (rope_len min_height : ℝ)
    (magnets : List Magnet) : Ball × PhysicsContext :=
  let valid_square_side := Real.sqrt 2 * rope_len
  let pixels_per_meter := 10 * (x : ℝ) / valid_square_side
  let physics_ctx := { PhysicsContext.new with
    pixels_per_meter := pixels_per_meter
    time_precision := 0.01 }
  let ball : Ball :=
    { mass := 0.264
      pos := ⟨0.25, 0⟩
      rope_len := rope_len
      rope_pivot := ⟨0, 0, rope_len + min_height⟩
      velocity := ⟨0, 0, 0⟩
      air_friction := 0.037
      magnets := magnets
      last_positions := [] }
  (ball, physics_ctx)

/-- One cell of the pixel loop of main.rs `create_square_image` (lines 334-351): reset
the threaded ball's position to the cell's world position and its velocity to zero,
settle for 30 simulated seconds, and classify by the nearest magnet. The returned
ball is the mutated `ball` variable that the next cell reuses. -/
noncomputable def cellStep (physics_ctx : PhysicsContext) (x px py : ℕ) (b : Ball) :
    Ball × ℕ :=
  let pos := world_position_no_ctx ⟨(px : ℝ), (py : ℝ)⟩ ⟨(x : ℝ) / 2, (x : ℝ) / 2⟩ physics_ctx
  let b1 := { b with pos := pos, velocity := (⟨0, 0, 0⟩ : Vec3) }
  let b2 := Ball.move_over_speed1 30 physics_ctx b1
  (b2, closest_magnet b2.magnets b2.pos)

/-- The inner `for y in 0..h` loop of main.rs `create_square_image`, threading the
single mutable ball through the cells of column `px`. -/
noncomputable def colSeq (physics_ctx : PhysicsContext) (x px : ℕ) :
    List ℕ → Ball → Ball × List ℕ
  | [], b => (b, [])
  | py :: pys, b =>
    let r := cellStep physics_ctx x px py b
    let rest := colSeq physics_ctx x px pys r.1
    (rest.1, r.2 :: rest.2)

/-- The outer `for x in 0..w` loop of main.rs `create_square_image`. -/
noncomputable def gridSeq (physics_ctx : PhysicsContext) (x : ℕ) :
    List ℕ → Ball → Ball × List (List ℕ)
  | [], b => (b, [])
  | px :: pxs, b =>
    let r := colSeq physics_ctx x px (List.range x) b
    let rest := gridSeq physics_ctx x pxs r.1
    (rest.1, r.2 :: rest.2)

/-- main.rs `create_square_image` (lines 325-356), as the grid of chosen magnet
indices; the colour lookup `magnets[closest].color` and the PNG encoding are
presentation and out of scope. -/
noncomputable def create_square_image (x : ℕ) (ball : Ball)
    (physics_ctx : PhysicsContext) : List (List ℕ) :=
  (gridSeq physics_ctx x (List.range x) ball).2

/-- The configuration fields of a `Ball`: everything except the per-particle state
`pos`, `velocity` and the recorded trail `last_positions`. -/
structure BallCfg where
  mass : ℝ
  rope_len : ℝ
  rope_pivot : Vec3
  air_friction : ℝ
  magnets : List Magnet

/-- Projection of a `Ball` onto its configuration fields. -/
noncomputable def Ball.cfg (b : Ball) : BallCfg :=
  ⟨b.mass, b.rope_len, b.rope_pivot, b.air_friction, b.magnets⟩

/-- The per-cell classification as a pure function of the configuration, the grid
size and the cell's own pixel coordinates: the cell-local meaning of one iteration
of main.rs `create_square_image`. -/
noncomputable def classifyCell (physics_ctx : PhysicsContext) (cfg : BallCfg)
    (x px py : ℕ) : ℕ :=
  let pos := world_position_no_ctx ⟨(px : ℝ), (py : ℝ)⟩ ⟨(x : ℝ) / 2, (x : ℝ) / 2⟩ physics_ctx
  let b : Ball :=
    { mass := cfg.mass
      pos := pos
      rope_len := cfg.rope_len
      rope_pivot := cfg.rope_pivot
      velocity := ⟨0, 0, 0⟩
      air_friction := cfg.air_friction
      magnets := cfg.magnets
      last_positions := [] }
  let b2 := Ball.move_over_speed1 30 physics_ctx b
  closest_magnet b2.magnets b2.pos

namespace Par

/-- par.rs `Context` (lines 12-22). -/
structure Context where
  gravity : ℝ
  mass : ℝ
  rope_length : ℝ
  rope_pivot : Vec3
  air_resistence_coefficent : ℝ
  magnet_coefficent : ℝ
  time_step : ℝ
  magnets : List Magnet
  meters_per_unit : ℝ

/-- par.rs `normalize` (lines 138-142) on one cell: divide by the length, then map
NaN to 0; over the reals the NaN case is exactly the zero-length input. -/
noncomputable def normalize (v : Vec3) : Vec3 :=
  if v.length = 0 then ⟨0, 0, 0⟩ else v.divScalar v.length

/-- par.rs gravity force of `take_step` (lines 151-157) on one cell: a zero x/y part
with `mass * gravity` pushed as the z component. Note the missing negation. -/
noncomputable def gravity_force (ctx : Context) : Vec3 := ⟨0, 0, ctx.mass * ctx.gravity⟩

/-- par.rs air resistance force of `take_step` (lines 158-160) on one cell. -/
noncomputable def air_resistence_force (ctx : Context) (velocity : Vec3) : Vec3 :=
  (((normalize velocity).mulScalar velocity.length_squared).mulScalar
      ctx.air_resistence_coefficent).mulScalar (-1)

/-- par.rs total magnetic force of `take_step` (lines 162-171) on one cell. -/
noncomputable def magnetic_force (ctx : Context) (position : Vec3) : Vec3 :=
  ctx.magnets.foldl (fun acc magnet =>
    let mf := magnet.position - position
    let magnitude := ctx.magnet_coefficent / mf.length_squared
    acc + (normalize mf).mulScalar magnitude) ⟨0, 0, 0⟩

/-- par.rs `forces_projected` of `take_step` (lines 177-181) on one cell:
`dot(force, rope) / rope.length_squared * (-1) * rope` - negated unconditionally. -/
noncomputable def forces_projected (force_vectors rope_vectors : Vec3) : Vec3 :=
  Vec3.smul (Vec3.dot force_vectors rope_vectors / rope_vectors.length_squared * (-1))
    rope_vectors

/-- par.rs `final_force` of `take_step` (line 183) on one cell. -/
noncomputable def final_force (force_vectors rope_vectors : Vec3) : Vec3 :=
  force_vectors + forces_projected force_vectors rope_vectors

/-- The `fix position y` block of par.rs `take_step` (lines 188-200) on one cell:
`a` is the SUM `(pos.x - pivot.x) + (pos.y - pivot.y)` (via `sum_axis`), and the
radicand is `(a + c) * (a - c)`; the resulting z is `pivot.z - sqrt((a+c)*(a-c))`. -/
noncomputable def height_fix (ctx : Context) (pos2d : Vec2) : ℝ :=
  let a := (pos2d.x - ctx.rope_pivot.x) + (pos2d.y - ctx.rope_pivot.y)
  let c := ctx.rope_length
  ctx.rope_pivot.z - Real.sqrt ((a + c) * (a - c))

/-- par.rs `take_step` (lines 144-201) on one grid cell. -/
noncomputable def take_step (ctx : Context) (position velocity : Vec3) : Vec3 × Vec3 :=
  let force_vectors :=
    gravity_force ctx + air_resistence_force ctx velocity + magnetic_force ctx position
  let rope_vectors := ctx.rope_pivot - position
  let ff := final_force force_vectors rope_vectors
  let a := ff.divScalar ctx.mass
  let velocity2 := velocity + a.mulScalar ctx.time_step
  let position2 := position + velocity2.mulScalar ctx.time_step
  let b := height_fix ctx ⟨position2.x, position2.y⟩
  (⟨position2.x, position2.y, b⟩, velocity2)

/-- The exact value of `f64::MAX`, the initial best distance of par.rs
`State::image` (line 72). -/
noncomputable def f64MAX : ℝ := (2 ^ 53 - 1) * 2 ^ 971

/-- Squared 3D distance from a cell's full position to magnet `i`, as computed by
par.rs `State::image` (lines 75-78): the difference is squared and summed over all
three components of `self.position`, including z. -/
noncomputable def magDistSq (magnets : List Magnet) (position : Vec3) (i : ℕ) : ℝ :=
  ((magnets.getD i defaultMagnet).position - position).length_squared

/-- The masked scan of par.rs `State::image` (lines 74-86) on one cell, iterating `k`
more magnets starting at index `i`: `mask = (distance - min < 0)` as 0/1, then
`min = distance*mask + min*(1-mask)` and `index = i*mask + index*(1-mask)`. -/
noncomputable def imageScan (d : ℕ → ℝ) : ℕ → ℕ → ℝ → ℝ → ℝ × ℝ
  | 0, _, index_val, min_val => (index_val, min_val)
  | Nat.succ k, i, index_val, min_val =>
    let mask : ℝ := if d i - min_val < 0 then 1 else 0
    let mask_inverse := 1 - mask
    imageScan d k (i + 1) ((i : ℝ) * mask + index_val * mask_inverse)
      (d i * mask + min_val * mask_inverse)

/-- The per-cell classification of par.rs `State::image` (lines 69-96): run the
masked scan from `(0, f64::MAX)` over all magnets, then `i.round() as usize`. -/
noncomputable def classify (magnets : List Magnet) (position : Vec3) : ℕ :=
  (round ((imageScan (magDistSq magnets position) magnets.length 0 0 f64MAX).1)).toNat

end Par

section VectorLemmas

@[simp]
theorem Vec2.x_add (a b : Vec2) : (a + b).x = a.x + b.x := rfl

@[simp]
theorem Vec2.y_add (a b : Vec2) : (a + b).y = a.y + b.y := rfl

@[simp]
theorem Vec2.x_sub (a b : Vec2) : (a - b).x = a.x - b.x := rfl

@[simp]
theorem Vec2.y_sub (a b : Vec2) : (a - b).y = a.y - b.y := rfl

@[simp]
theorem Vec3.add_x (a b : Vec3) : (a + b).x = a.x + b.x := rfl

@[simp]
theorem Vec3.add_y (a b : Vec3) : (a + b).y = a.y + b.y := rfl

@[simp]
theorem Vec3.add_z (a b : Vec3) : (a + b).z = a.z + b.z := rfl

@[simp]
theorem Vec3.sub_x (a b : Vec3) : (a - b).x = a.x - b.x := rfl

@[simp]
theorem Vec3.sub_y (a b : Vec3) : (a - b).y = a.y - b.y := rfl

@[simp]
theorem Vec3.sub_z (a b : Vec3) : (a - b).z = a.z - b.z := rfl

theorem Vec3.length_squared_nonneg (v : Vec3) : 0 ≤ v.length_squared := by
  have hx := mul_self_nonneg v.x
  have hy := mul_self_nonneg v.y
  have hz := mul_self_nonneg v.z
  simp only [Vec3.length_squared, Vec3.dot]
  linarith

theorem Vec3.length_squared_eq_zero {v : Vec3} :
    v.length_squared = 0 ↔ v = ⟨0, 0, 0⟩ := by
  simp only [Vec3.length_squared, Vec3.dot]
  constructor
  · intro h
    have hx := mul_self_nonneg v.x
    have hy := mul_self_nonneg v.y
    have hz := mul_self_nonneg v.z
    have hx0 : v.x * v.x = 0 := by linarith
    have hy0 : v.y * v.y = 0 := by linarith
    have hz0 : v.z * v.z = 0 := by linarith
    ext
    · exact mul_self_eq_zero.mp hx0
    · exact mul_self_eq_zero.mp hy0
    · exact mul_self_eq_zero.mp hz0
  · intro h
    subst h
    norm_num

theorem Vec3.length_squared_pos {v : Vec3} (h : v ≠ ⟨0, 0, 0⟩) :
    0 < v.length_squared :=
  lt_of_le_of_ne (Vec3.length_squared_nonneg v)
    (fun h0 => h (Vec3.length_squared_eq_zero.mp h0.symm))

theorem Vec3.length_pos {v : Vec3} (h : v ≠ ⟨0, 0, 0⟩) : 0 < v.length := by
  simpa [Vec3.length] using Real.sqrt_pos.mpr (Vec3.length_squared_pos h)

theorem Vec3.dot_comm (a b : Vec3) : Vec3.dot a b = Vec3.dot b a := by
  simp only [Vec3.dot]; ring

theorem Vec3.dot_zero_right {a : Vec3} : Vec3.dot a ⟨0, 0, 0⟩ = 0 := by
  simp [Vec3.dot]

theorem Vec3.dot_zero_left {a : Vec3} : Vec3.dot ⟨0, 0, 0⟩ a = 0 := by
  simp [Vec3.dot]

theorem Vec3.smul_dot (s : ℝ) (a b : Vec3) :
    Vec3.dot (Vec3.smul s a) b = s * Vec3.dot a b := by
  simp only [Vec3.dot, Vec3.smul]; ring

theorem Vec3.smul_length_squared (s : ℝ) (a : Vec3) :
    (Vec3.smul s a).length_squared = s ^ 2 * a.length_squared := by
  simp only [Vec3.length_squared, Vec3.dot, Vec3.smul]; ring

@[simp]
theorem Vec3.mulScalar_zero (v : Vec3) : v.mulScalar 0 = ⟨0, 0, 0⟩ := by
  simp [Vec3.mulScalar]

@[simp]
theorem Vec3.smul_zero_vec (v : Vec3) : Vec3.smul 0 v = ⟨0, 0, 0⟩ := by
  simp [Vec3.smul]

@[simp]
theorem Vec3.zero_mulScalar (s : ℝ) : Vec3.mulScalar ⟨0, 0, 0⟩ s = ⟨0, 0, 0⟩ := by
  simp [Vec3.mulScalar]

@[simp]
theorem Vec3.add_zero_vec (v : Vec3) : v + (⟨0, 0, 0⟩ : Vec3) = v := by
  ext <;> simp

theorem toDegrees_lt_90 (a : ℝ) : toDegrees a < 90 ↔ a < Real.pi / 2 := by
  have hpi : (0 : ℝ) < 180 / Real.pi := div_pos (by norm_num) Real.pi_pos
  rw [toDegrees, ← lt_div_iff₀ hpi]
  constructor
  · intro h
    calc a < 90 / (180 / Real.pi) := h
    _ = Real.pi / 2 := by field_simp; ring
  · intro h
    calc a < Real.pi / 2 := h
    _ = 90 / (180 / Real.pi) := by field_simp; ring

end VectorLemmas

section AdvanceLemmas

theorem stepCount_zero (physics_ctx : PhysicsContext) : stepCount 0 physics_ctx = 0 := by
  simp [stepCount]

theorem stepCountSpeed1_zero (physics_ctx : PhysicsContext) :
    stepCountSpeed1 0 physics_ctx = 0 := by
  simp [stepCountSpeed1]

theorem stepsRecord_fst (physics_ctx : PhysicsContext) :
    ∀ (n : ℕ) (b : Ball),
      (Ball.stepsRecord physics_ctx n b).1 = (Ball.move_step physics_ctx)^[n] b
  | 0, _ => rfl
  | Nat.succ n, b => by
    rw [Function.iterate_succ_apply]
    exact stepsRecord_fst physics_ctx n (b.move_step physics_ctx)

theorem stepsRecord_length (physics_ctx : PhysicsContext) :
    ∀ (n : ℕ) (b : Ball), (Ball.stepsRecord physics_ctx n b).2.length = n
  | 0, _ => rfl
  | Nat.succ n, b => by
    simpa [Ball.stepsRecord] using
      stepsRecord_length physics_ctx n (b.move_step physics_ctx)

theorem stepsRecord_getLast (physics_ctx : PhysicsContext) :
    ∀ (n : ℕ) (b : Ball), 0 < n →
      (Ball.stepsRecord physics_ctx n b).2.getLast?
        = some (((Ball.move_step physics_ctx)^[n] b).pos)
  | 0, _, h => absurd h (lt_irrefl 0)
  | Nat.succ n, b, _ => by
    rw [Function.iterate_succ_apply]
    rcases Nat.eq_zero_or_pos n with hn | hn
    · subst hn
      rfl
    · have ih := stepsRecord_getLast physics_ctx n (b.move_step physics_ctx) hn
      have hne : (Ball.stepsRecord physics_ctx n (b.move_step physics_ctx)).2 ≠ [] := by
        intro hnil
        rw [hnil] at ih
        simp at ih
      show ((b.move_step physics_ctx).pos ::
          (Ball.stepsRecord physics_ctx n (b.move_step physics_ctx)).2).getLast? = _
      rcases hl : (Ball.stepsRecord physics_ctx n (b.move_step physics_ctx)).2 with _ | ⟨p, ps⟩
      · exact absurd hl hne
      · rw [List.getLast?_cons_cons, ← hl, ih]

end AdvanceLemmas

/-- C6: for every particle state and duration, `move_over_time` performs exactly
`floor(duration * speed / time_precision)` micro-steps (and `move_over_speed1`
exactly `floor(duration / time_precision)`); in particular advancing by 0 performs
zero micro-steps and leaves the ball, hence its horizontal position and velocity,
unchanged. -/
theorem claim_C6_advance_count (physics_ctx : PhysicsContext) (b : Ball) (d : ℝ) :
    Ball.move_over_time d physics_ctx b
        = (Ball.move_step physics_ctx)^[stepCount d physics_ctx] b
      ∧ Ball.move_over_speed1 d physics_ctx b
        = (Ball.move_step physics_ctx)^[stepCountSpeed1 d physics_ctx] b
      ∧ stepCount 0 physics_ctx = 0
      ∧ Ball.move_over_time 0 physics_ctx b = b
      ∧ Ball.move_over_speed1 0 physics_ctx b = b := by
  refine ⟨rfl, rfl, stepCount_zero physics_ctx, ?_, ?_⟩
  · rw [Ball.move_over_time, stepCount_zero]
    rfl
  · rw [Ball.move_over_speed1, stepCountSpeed1_zero]
    rfl

/-- C10: one `move_step` changes only `pos` and `velocity`: the mass, rope length,
rope pivot, air-friction coefficient, magnet list (positions and colour tags), and
the recorded trail `last_positions` are all unchanged. -/
theorem claim_C10_frame (physics_ctx : PhysicsContext) (b : Ball) :
    (b.move_step physics_ctx).mass = b.mass
      ∧ (b.move_step physics_ctx).rope_len = b.rope_len
      ∧ (b.move_step physics_ctx).rope_pivot = b.rope_pivot
      ∧ (b.move_step physics_ctx).air_friction = b.air_friction
      ∧ (b.move_step physics_ctx).magnets = b.magnets
      ∧ (b.move_step physics_ctx).last_positions = b.last_positions :=
  ⟨rfl, rfl, rfl, rfl, rfl, rfl⟩

/-- C5: for a non-negative duration producing at least one micro-step, the recording
advance stores a trail whose length is `floor(d * speed / time_precision)` and whose
last element is the horizontal position that the non-recording advance reaches from
the same initial state and duration. -/
theorem claim_C5_recording (physics_ctx : PhysicsContext) (b : Ball) (d : ℝ)
    (hd : 0 ≤ d) (hn : 1 ≤ stepCount d physics_ctx) :
    (Ball.move_over_time_save_positions d physics_ctx b).last_positions.length
        = stepCount d physics_ctx
      ∧ (Ball.move_over_time_save_positions d physics_ctx b).last_positions.getLast?
        = some ((Ball.move_over_time d physics_ctx b).pos) := by
  constructor
  · show (Ball.stepsRecord physics_ctx (stepCount d physics_ctx) b).2.length = _
    exact stepsRecord_length physics_ctx _ b
  · show (Ball.stepsRecord physics_ctx (stepCount d physics_ctx) b).2.getLast? = _
    rw [stepsRecord_getLast physics_ctx _ b hn]
    rfl

/-- Concrete scenario for the hypotheses of `claim_C5_recording`: with `speed = 1`
and `time_precision = 1`, a duration of 1 yields one recorded micro-step. -/
noncomputable def ctxC5 : PhysicsContext :=
  { gravity := 10, pixels_per_meter := 3000, magnet_coefficent := 0.0001
    time_precision := 1, speed := 1 }

/-- Concrete ball used by witnesses. -/
noncomputable def ballW : Ball :=
  { mass := 1, pos := ⟨0, 0⟩, rope_len := 1, rope_pivot := ⟨0, 0, 2⟩
    velocity := ⟨0, 0, 0⟩, air_friction := 0, magnets := [], last_positions := [] }

theorem claim_C5_recording_witness :
    (0 : ℝ) ≤ 1 ∧ 1 ≤ stepCount 1 ctxC5
      ∧ ((Ball.move_over_time_save_positions 1 ctxC5 ballW).last_positions.length
            = stepCount 1 ctxC5
          ∧ (Ball.move_over_time_save_positions 1 ctxC5 ballW).last_positions.getLast?
            = some ((Ball.move_over_time 1 ctxC5 ballW).pos)) := by
  have h1 : stepCount 1 ctxC5 = 1 := by
    simp [stepCount, ctxC5]
  exact ⟨by norm_num, by rw [h1], claim_C5_recording ctxC5 ballW 1 (by norm_num) (by rw [h1])⟩

section ProjectionLemmas

/-- If the flip condition of main.rs `move_step` fails — the computed angle between
the projected component and the raw force is not below 90 degrees — then the
projected component is the zero vector (over the reals: the angle is the arccos of a
non-negative quantity, so it can only reach 90 degrees when `dot f r = 0`, which
makes the projection vanish). -/
theorem projectOntoRope_eq_zero_of_not_lt {f r : Vec3}
    (h : ¬ toDegrees (angle3 (projectOntoRope f r) f) < 90) :
    Vec3.dot f r = 0 := by
  by_contra hne
  apply h
  rw [toDegrees_lt_90]
  have hrne : r ≠ ⟨0, 0, 0⟩ := by
    intro h0
    subst h0
    exact hne Vec3.dot_zero_right
  have hfne : f ≠ ⟨0, 0, 0⟩ := by
    intro h0
    subst h0
    exact hne Vec3.dot_zero_left
  have hlr : 0 < r.length_squared := Vec3.length_squared_pos hrne
  have hsne : Vec3.dot f r / r.length_squared ≠ 0 :=
    div_ne_zero hne (ne_of_gt hlr)
  have hpne : projectOntoRope f r ≠ ⟨0, 0, 0⟩ := by
    rw [projectOntoRope]
    intro h0
    have := Vec3.length_squared_eq_zero.mpr h0
    rw [Vec3.smul_length_squared] at this
    rcases mul_eq_zero.mp this with h1 | h2
    · exact hsne ((pow_eq_zero_iff (two_ne_zero)).mp h1)
    · exact ne_of_gt hlr h2
  have hdotpf : 0 < Vec3.dot (projectOntoRope f r) f := by
    rw [projectOntoRope, Vec3.smul_dot, Vec3.dot_comm r f, div_mul_eq_mul_div, ← sq]
    exact div_pos (sq_pos_of_ne_zero hne) hlr
  have hplen : 0 < (projectOntoRope f r).length := Vec3.length_pos hpne
  have hflen : 0 < f.length := Vec3.length_pos hfne
  apply Real.arccos_lt_pi_div_two.mpr
  have h1 : 0 < 1 / (projectOntoRope f r).length := by positivity
  have h2 : 0 < 1 / f.length := by positivity
  positivity

/-- The unconditional negation in par.rs `take_step` agrees with main.rs's
angle-guarded negation: whenever the guard fails the projection is zero anyway. -/
theorem final_force_eq_guarded (f r : Vec3) :
    Par.final_force f r
      = f + (if toDegrees (angle3 (projectOntoRope f r) f) < 90
             then (projectOntoRope f r).mulScalar (-1) else projectOntoRope f r) := by
  by_cases hlt : toDegrees (angle3 (projectOntoRope f r) f) < 90
  · rw [if_pos hlt, Par.final_force, Par.forces_projected, projectOntoRope]
    ext <;> simp [Vec3.smul, Vec3.mulScalar]
  · rw [if_neg hlt]
    have hdot : Vec3.dot f r = 0 := projectOntoRope_eq_zero_of_not_lt hlt
    rw [Par.final_force, Par.forces_projected, projectOntoRope, hdot]
    ext <;> simp [Vec3.smul]

end ProjectionLemmas

/-- C2: in every micro-step the raw force is projected onto the rope vector
(`pivot - ball_position`), the radial component is negated exactly when the angle
between it and the raw force is below 90 degrees, and the constrained force is the
raw force plus the (possibly negated) radial component. `constrainForceMain` is the
slice of main.rs `move_step` (lines 107-117) and satisfies this by construction;
`Par.final_force` is the slice of par.rs `take_step` (lines 174-183), which negates
unconditionally, and it produces the same constrained force because the guard can
only fail when the radial component is the zero vector. -/
theorem claim_C2_radial_flip (f r : Vec3) :
    constrainForceMain f r
        = f + (if toDegrees (angle3 (projectOntoRope f r) f) < 90
               then (projectOntoRope f r).mulScalar (-1) else projectOntoRope f r)
      ∧ Par.final_force f r
        = f + (if toDegrees (angle3 (projectOntoRope f r) f) < 90
               then (projectOntoRope f r).mulScalar (-1) else projectOntoRope f r) :=
  ⟨rfl, final_force_eq_guarded f r⟩

/-- Concrete par.rs configuration exhibiting the height-fix bug: pivot `(0,0,1)`,
rope length 1 (the other fields are irrelevant to `height_fix`). -/
noncomputable def parCtxC1 : Par.Context :=
  { gravity := 10, mass := 1, rope_length := 1, rope_pivot := ⟨0, 0, 1⟩
    air_resistence_coefficent := 0.037, magnet_coefficent := 0.0002
    time_step := 0.0001, magnets := [], meters_per_unit := 0.001 }

theorem distC1 : Vec2.distance ⟨3 / 5, 0⟩ (⟨0, 0⟩ : Vec2) = 3 / 5 := by
  show Real.sqrt (((3 : ℝ) / 5 - 0) * ((3 : ℝ) / 5 - 0) + ((0 : ℝ) - 0) * ((0 : ℝ) - 0))
      = 3 / 5
  rw [show ((3 : ℝ) / 5 - 0) * ((3 : ℝ) / 5 - 0) + ((0 : ℝ) - 0) * ((0 : ℝ) - 0)
      = (3 / 5) * (3 / 5) by norm_num,
    Real.sqrt_mul_self (by norm_num : (0 : ℝ) ≤ 3 / 5)]

/-- C1: main.rs `ball_height` does compute `pivot.z - sqrt(rope_len^2 - d^2)` with
`d` the horizontal distance to the pivot (first conjunct, for every ball), but the
height fix inside par.rs `take_step` does not: at the in-range cell position
`(3/5, 0)` with pivot `(0,0,1)` and rope length 1 it yields `pivot.z - sqrt(a^2-c^2)`
with `a` the coordinate SUM, i.e. the sqrt of a negative radicand (NaN in the code,
0 in the real model, so height 1), while the claimed lower-intersection height is
`1 - sqrt(1 - (3/5)^2) = 1/5`. -/
theorem claim_C1_height :
    (∀ b : Ball, b.ball_height
        = b.rope_pivot.z
          - Real.sqrt (b.rope_len ^ 2 - (Vec2.distance b.pos b.rope_pivot.xy) ^ 2))
      ∧ Par.height_fix parCtxC1 ⟨3 / 5, 0⟩ = 1
      ∧ parCtxC1.rope_pivot.z
          - Real.sqrt (parCtxC1.rope_length ^ 2
            - (Vec2.distance ⟨3 / 5, 0⟩ parCtxC1.rope_pivot.xy) ^ 2) = 1 / 5
      ∧ (1 : ℝ) ≠ 1 / 5 := by
  refine ⟨?_, ?_, ?_, by norm_num⟩
  · intro b
    have h : (b.rope_len - Vec2.distance b.pos b.rope_pivot.xy)
          * (b.rope_len + Vec2.distance b.pos b.rope_pivot.xy)
        = b.rope_len ^ 2 - (Vec2.distance b.pos b.rope_pivot.xy) ^ 2 := by ring
    simp only [Ball.ball_height]
    rw [h]
  · show (1 : ℝ)
        - Real.sqrt (((3 : ℝ) / 5 - 0 + (0 - 0) + 1) * ((3 : ℝ) / 5 - 0 + (0 - 0) - 1)) = 1
    rw [Real.sqrt_eq_zero'.mpr (by norm_num :
      ((3 : ℝ) / 5 - 0 + (0 - 0) + 1) * ((3 : ℝ) / 5 - 0 + (0 - 0) - 1) ≤ 0)]
    norm_num
  · have hxy : (Vec3.xy ⟨0, 0, 1⟩ : Vec2) = ⟨0, 0⟩ := rfl
    simp only [parCtxC1, hxy, distC1]
    rw [show (1 : ℝ) ^ 2 - (3 / 5) ^ 2 = (4 / 5) ^ 2 by norm_num,
      Real.sqrt_sq (by norm_num : (0 : ℝ) ≤ 4 / 5)]
    norm_num

/-- Concrete par.rs configuration exhibiting the gravity-sign bug: mass 1,
gravity 10 (the values par.rs `run` uses). -/
noncomputable def parCtxC3 : Par.Context :=
  { gravity := 10, mass := 1, rope_length := 1, rope_pivot := ⟨0, 0, 1.04⟩
    air_resistence_coefficent := 0.037, magnet_coefficent := 0.0002
    time_step := 0.0001, magnets := [], meters_per_unit := 0.001 }

/-- C3: the gravity force of main.rs `move_step` is `(0, 0, -(mass * gravity))` for
every configuration (first conjunct), but the gravity force built by par.rs
`take_step` has z component `+mass * gravity`: with mass 1 and gravity 10 it is
`(0, 0, 10)`, pointing upward, not the claimed `-(mass * gravity) = -10`. -/
theorem claim_C3_gravity :
    (∀ (physics_ctx : PhysicsContext) (b : Ball),
        gravity_force physics_ctx b = ⟨0, 0, -(b.mass * physics_ctx.gravity)⟩)
      ∧ Par.gravity_force parCtxC3 = ⟨0, 0, 10⟩
      ∧ (0 : ℝ) < (Par.gravity_force parCtxC3).z
      ∧ (Par.gravity_force parCtxC3).z ≠ -(parCtxC3.mass * parCtxC3.gravity) := by
  refine ⟨?_, ?_, ?_, ?_⟩
  · intro physics_ctx b
    ext <;> simp [gravity_force] <;> ring
  · ext <;> simp [Par.gravity_force, parCtxC3]
  · simp [Par.gravity_force, parCtxC3]
  · simp [Par.gravity_force, parCtxC3]
    norm_num

section ArgminLemmas

/-- Index `k` is the lowest index attaining the minimum of `d` over `[0, n)`:
it is in range, minimal, and strictly better than every earlier index. -/
def IsLowestArgmin (d : ℕ → ℝ) (n k : ℕ) : Prop :=
  k < n ∧ (∀ j, j < n → d k ≤ d j) ∧ ∀ j, j < k → d k < d j

theorem scanMin_spec (d : ℕ → ℝ) :
    ∀ (k i closest : ℕ) (minv : ℝ), closest < i → minv = d closest →
      (∀ j, j < i → minv ≤ d j) → (∀ j, j < closest → minv < d j) →
      IsLowestArgmin d (i + k) (scanMin d k i closest minv).1
  | 0, i, closest, minv, hci, hmv, hmin, hlow => by
    subst hmv
    simp only [scanMin]
    exact ⟨by omega, fun j hj => hmin j (by omega), fun j hj => hlow j hj⟩
  | Nat.succ k, i, closest, minv, hci, hmv, hmin, hlow => by
    subst hmv
    have hik : i + Nat.succ k = (i + 1) + k := by omega
    rw [hik, scanMin]
    by_cases h : d i < d closest
    · rw [if_pos h]
      refine scanMin_spec d k (i + 1) i (d i) (by omega) rfl ?_ ?_
      · intro j hj
        rcases Nat.lt_succ_iff_lt_or_eq.mp hj with hj' | hj'
        · exact le_of_lt (lt_of_lt_of_le h (hmin j hj'))
        · subst hj'
          exact le_refl _
      · intro j hj
        exact lt_of_lt_of_le h (hmin j hj)
    · rw [if_neg h]
      refine scanMin_spec d k (i + 1) closest (d closest) (by omega) rfl ?_ ?_
      · intro j hj
        rcases Nat.lt_succ_iff_lt_or_eq.mp hj with hj' | hj'
        · exact hmin j hj'
        · subst hj'
          exact not_lt.mp h
      · exact hlow

theorem imageScan_eq (d : ℕ → ℝ) :
    ∀ (k i closest : ℕ) (minv : ℝ),
      Par.imageScan d k i ((closest : ℕ) : ℝ) minv
        = ((((scanMin d k i closest minv).1 : ℕ) : ℝ), (scanMin d k i closest minv).2)
  | 0, i, closest, minv => rfl
  | Nat.succ k, i, closest, minv => by
    simp only [Par.imageScan, scanMin]
    by_cases h : d i < minv
    · rw [if_pos (sub_neg.mpr h), if_pos h]
      have h1 : ((i : ℕ) : ℝ) * 1 + ((closest : ℕ) : ℝ) * (1 - 1) = ((i : ℕ) : ℝ) := by
        ring
      have h2 : d i * 1 + minv * (1 - 1) = d i := by ring
      rw [h1, h2]
      exact imageScan_eq d k (i + 1) i (d i)
    · rw [if_neg (fun hc => h (sub_neg.mp hc)), if_neg h]
      have h1 : ((i : ℕ) : ℝ) * 0 + ((closest : ℕ) : ℝ) * (1 - 0) = ((closest : ℕ) : ℝ) := by
        ring
      have h2 : d i * 0 + minv * (1 - 0) = minv := by ring
      rw [h1, h2]
      exact imageScan_eq d k (i + 1) closest minv

theorem closest_magnet_spec (magnets : List Magnet) (end_pos : Vec2)
    (h : magnets ≠ []) :
    IsLowestArgmin (mainDist magnets end_pos) magnets.length
      (closest_magnet magnets end_pos) := by
  rcases magnets with _ | ⟨m, rest⟩
  · exact absurd rfl h
  · have hs := scanMin_spec (mainDist (m :: rest) end_pos) rest.length 1 0
      (mainDist (m :: rest) end_pos 0) (by omega) rfl
      (fun j hj => by
        have : j = 0 := by omega
        subst this
        exact le_refl _)
      (fun j hj => absurd hj (Nat.not_lt_zero j))
    rw [show 1 + rest.length = (m :: rest).length by simp [Nat.add_comm]] at hs
    exact hs

theorem classify_spec (magnets : List Magnet) (position : Vec3) (hne : magnets ≠ [])
    (hmax : Par.magDistSq magnets position 0 < Par.f64MAX) :
    IsLowestArgmin (Par.magDistSq magnets position) magnets.length
      (Par.classify magnets position) := by
  rcases magnets with _ | ⟨m, rest⟩
  · exact absurd rfl hne
  · rw [Par.classify]
    have hlen : (m :: rest).length = rest.length + 1 := rfl
    rw [hlen]
    simp only [Par.imageScan]
    rw [if_pos (sub_neg.mpr hmax)]
    have h1 : ((0 : ℕ) : ℝ) * 1 + (0 : ℝ) * (1 - 1) = (((0 : ℕ) : ℕ) : ℝ) := by
      norm_num
    have h2 : Par.magDistSq (m :: rest) position 0 * 1 + Par.f64MAX * (1 - 1)
        = Par.magDistSq (m :: rest) position 0 := by ring
    rw [h1, h2, imageScan_eq (Par.magDistSq (m :: rest) position) rest.length (0 + 1) 0
      (Par.magDistSq (m :: rest) position 0)]
    rw [round_natCast, Int.toNat_natCast]
    have hs := scanMin_spec (Par.magDistSq (m :: rest) position) rest.length (0 + 1) 0
      (Par.magDistSq (m :: rest) position 0) (by omega) rfl
      (fun j hj => by
        have : j = 0 := by omega
        subst this
        exact le_refl _)
      (fun j hj => absurd hj (Nat.not_lt_zero j))
    rw [show (0 + 1) + rest.length = rest.length + 1 by omega] at hs
    exact hs

end ArgminLemmas

/-- Magnet at the origin (z = 0) used by the C4 counterexample. -/
noncomputable def cexMagnetA : Magnet := ⟨⟨0, 0, 0⟩, (10, 20, 30)⟩

/-- Magnet horizontally at `(1/10, 0)` but lifted to z = 5, used by the C4
counterexample. -/
noncomputable def cexMagnetB : Magnet := ⟨⟨1 / 10, 0, 5⟩, (40, 50, 60)⟩

theorem cexParDistSq0 :
    Par.magDistSq [cexMagnetA, cexMagnetB] ⟨1 / 10, 0, 0⟩ 0 = 1 / 100 := by
  simp only [Par.magDistSq, List.getD, cexMagnetA, Vec3.length_squared, Vec3.dot]
  norm_num

theorem cexParDistSq1 :
    Par.magDistSq [cexMagnetA, cexMagnetB] ⟨1 / 10, 0, 0⟩ 1 = 25 := by
  simp only [Par.magDistSq, List.getD, cexMagnetB, Vec3.length_squared, Vec3.dot]
  norm_num

theorem cexParDistSq0_lt_max :
    Par.magDistSq [cexMagnetA, cexMagnetB] ⟨1 / 10, 0, 0⟩ 0 < Par.f64MAX := by
  rw [cexParDistSq0, Par.f64MAX]
  norm_num

/-- C4 counterexample: the array-based classification of par.rs `State::image` does
not minimise the HORIZONTAL distance. With a magnet at (0,0,0) and a magnet at
(1/10, 0, 5), a cell whose position is (1/10, 0, 0) is horizontally at distance 0
from magnet 1 and 1/10 from magnet 0, yet `State::image` classifies it as magnet 0
because it compares full 3D squared distances (including the z component). -/
theorem claim_C4_counterexample :
    Par.classify [cexMagnetA, cexMagnetB] ⟨1 / 10, 0, 0⟩ = 0
      ∧ mainDist [cexMagnetA, cexMagnetB] ⟨1 / 10, 0⟩ 1
        < mainDist [cexMagnetA, cexMagnetB] ⟨1 / 10, 0⟩ 0 := by
  constructor
  · obtain ⟨hlt, hmin, _⟩ := classify_spec [cexMagnetA, cexMagnetB] ⟨1 / 10, 0, 0⟩
      (by simp) cexParDistSq0_lt_max
    have hlt2 : Par.classify [cexMagnetA, cexMagnetB] ⟨1 / 10, 0, 0⟩ < 2 := by
      simpa using hlt
    rcases (by omega :
        Par.classify [cexMagnetA, cexMagnetB] ⟨1 / 10, 0, 0⟩ = 0
          ∨ Par.classify [cexMagnetA, cexMagnetB] ⟨1 / 10, 0, 0⟩ = 1) with h0 | h1
    · exact h0
    · exfalso
      have := hmin 0 (by simp)
      rw [h1, cexParDistSq0, cexParDistSq1] at this
      norm_num at this
  · have h1 : mainDist [cexMagnetA, cexMagnetB] ⟨1 / 10, 0⟩ 1 = 0 := by
      show Real.sqrt (((1 : ℝ) / 10 - 1 / 10) * ((1 : ℝ) / 10 - 1 / 10)
          + ((0 : ℝ) - 0) * ((0 : ℝ) - 0)) = 0
      rw [show ((1 : ℝ) / 10 - 1 / 10) * ((1 : ℝ) / 10 - 1 / 10)
          + ((0 : ℝ) - 0) * ((0 : ℝ) - 0) = 0 by norm_num]
      exact Real.sqrt_zero
    have h0 : 0 < mainDist [cexMagnetA, cexMagnetB] ⟨1 / 10, 0⟩ 0 := by
      show 0 < Real.sqrt (((1 : ℝ) / 10 - 0) * ((1 : ℝ) / 10 - 0)
          + ((0 : ℝ) - 0) * ((0 : ℝ) - 0))
      apply Real.sqrt_pos.mpr
      norm_num
    rw [h1]
    exact h0

/-- C4 amended: the per-pixel scan of main.rs `create_square_image` classifies each
cell by the index of the magnet minimising the HORIZONTAL distance to the final
position, with ties broken by the lowest index (first strictly smaller distance wins
in a single linear scan); the array-based classification of par.rs `State::image`
follows the same strict-scan tie-breaking rule but minimises the full 3D squared
distance from the cell's 3D position to the magnet's 3D position (given that the
first squared distance is below the `f64::MAX` sentinel). The two agree on the
repository's configurations, where all magnets share one z coordinate, but not in
general. -/
theorem claim_C4_argmin (magnets : List Magnet) (end_pos : Vec2) (position : Vec3)
    (hne : magnets ≠ []) (hmax : Par.magDistSq magnets position 0 < Par.f64MAX) :
    IsLowestArgmin (mainDist magnets end_pos) magnets.length
        (closest_magnet magnets end_pos)
      ∧ IsLowestArgmin (Par.magDistSq magnets position) magnets.length
        (Par.classify magnets position) :=
  ⟨closest_magnet_spec magnets end_pos hne, classify_spec magnets position hne hmax⟩

theorem claim_C4_argmin_witness :
    ([cexMagnetA, cexMagnetB] : List Magnet) ≠ []
      ∧ Par.magDistSq [cexMagnetA, cexMagnetB] ⟨1 / 10, 0, 0⟩ 0 < Par.f64MAX
      ∧ (IsLowestArgmin (mainDist [cexMagnetA, cexMagnetB] ⟨1 / 2, 0⟩)
            ([cexMagnetA, cexMagnetB] : List Magnet).length
            (closest_magnet [cexMagnetA, cexMagnetB] ⟨1 / 2, 0⟩)
          ∧ IsLowestArgmin (Par.magDistSq [cexMagnetA, cexMagnetB] ⟨1 / 10, 0, 0⟩)
            ([cexMagnetA, cexMagnetB] : List Magnet).length
            (Par.classify [cexMagnetA, cexMagnetB] ⟨1 / 10, 0, 0⟩)) :=
  ⟨by simp, cexParDistSq0_lt_max,
    claim_C4_argmin [cexMagnetA, cexMagnetB] ⟨1 / 2, 0⟩ ⟨1 / 10, 0, 0⟩ (by simp)
      cexParDistSq0_lt_max⟩

section DistanceLemmas

/-- Bridge from `Vec2` to `ℂ`, used only to inherit the triangle inequality. -/
noncomputable def Vec2.toComplex (v : Vec2) : ℂ := ⟨v.x, v.y⟩

theorem Vec2.length_toComplex (v : Vec2) : v.length = Complex.abs v.toComplex := by
  rw [Vec2.length, Complex.abs_apply, Complex.normSq_apply]
  rfl

theorem Vec2.distance_toComplex (a b : Vec2) :
    Vec2.distance a b = Complex.abs (a.toComplex - b.toComplex) := by
  rw [Vec2.distance, Vec2.length_toComplex]
  congr 1

theorem Vec2.distance_add_le (p w q : Vec2) :
    Vec2.distance (p + w) q ≤ Vec2.distance p q + Vec2.length w := by
  rw [Vec2.distance_toComplex, Vec2.distance_toComplex, Vec2.length_toComplex]
  have h : (p + w).toComplex - q.toComplex
      = (p.toComplex - q.toComplex) + w.toComplex := by
    apply Complex.ext <;> simp [Vec2.toComplex, Complex.sub_re, Complex.sub_im,
      Complex.add_re, Complex.add_im] <;> ring
  rw [h]
  exact Complex.abs.add_le _ _

theorem Vec2.length_mulScalar (v : Vec2) (t : ℝ) :
    (v.mulScalar t).length = |t| * v.length := by
  simp only [Vec2.length, Vec2.mulScalar]
  rw [show v.x * t * (v.x * t) + v.y * t * (v.y * t)
      = t ^ 2 * (v.x * v.x + v.y * v.y) by ring,
    Real.sqrt_mul (sq_nonneg t), Real.sqrt_sq_eq_abs]

theorem dist_axis (a : ℝ) (h : 0 ≤ a) : Vec2.distance ⟨a, 0⟩ (⟨0, 0⟩ : Vec2) = a := by
  show Real.sqrt ((a - 0) * (a - 0) + ((0 : ℝ) - 0) * ((0 : ℝ) - 0)) = a
  rw [show (a - 0) * (a - 0) + ((0 : ℝ) - 0) * ((0 : ℝ) - 0) = a * a by ring,
    Real.sqrt_mul_self h]

end DistanceLemmas

section StepEvaluation

/-- On a ball with no magnets and zero air friction whose gravity force is
orthogonal to the rope vector, one `move_step` reduces to plain gravity
integration: the radial projection is the zero vector, so the force is gravity
alone whichever branch the angle guard takes. -/
theorem move_step_simple (physics_ctx : PhysicsContext) (b : Ball)
    (hm : b.magnets = []) (ha : b.air_friction = 0)
    (hdot : Vec3.dot (gravity_force physics_ctx b)
      (b.rope_pivot - ⟨b.pos.x, b.pos.y, b.ball_height⟩) = 0) :
    (b.move_step physics_ctx).velocity
        = b.velocity
          + ((gravity_force physics_ctx b).divScalar b.mass).mulScalar
            physics_ctx.time_precision
      ∧ (b.move_step physics_ctx).pos
        = b.pos
          + ((b.velocity
              + ((gravity_force physics_ctx b).divScalar b.mass).mulScalar
                physics_ctx.time_precision).xy.mulScalar physics_ctx.time_precision) := by
  unfold Ball.move_step constrainForceMain projectOntoRope
  rw [hm, ha]
  simp only [List.foldl_nil, Vec3.mulScalar_zero, Vec3.zero_mulScalar,
    Vec3.add_zero_vec, hdot, zero_div, Vec3.smul_zero_vec, ite_self]
  constructor <;> trivial

/-- Physics context shared by the C7 and C8 counterexamples: default constants
with a micro-step of 1/100. -/
noncomputable def ctxCex : PhysicsContext :=
  { gravity := 10, pixels_per_meter := 3000, magnet_coefficent := 0.0001
    time_precision := 1 / 100, speed := 1 }

/-- Valid boundary state for C7: on the rope circle with a large outward velocity. -/
noncomputable def ballCex7 : Ball :=
  { mass := 1, pos := ⟨1, 0⟩, rope_len := 1, rope_pivot := ⟨0, 0, 2⟩
    velocity := ⟨100, 0, 0⟩, air_friction := 0, magnets := [], last_positions := [] }

theorem ballCex7_height : ballCex7.ball_height = 2 := by
  show (2 : ℝ) - Real.sqrt ((1 - Vec2.distance ⟨1, 0⟩ ⟨0, 0⟩)
      * (1 + Vec2.distance ⟨1, 0⟩ ⟨0, 0⟩)) = 2
  rw [dist_axis 1 (by norm_num), show ((1 : ℝ) - 1) * ((1 : ℝ) + 1) = 0 by ring,
    Real.sqrt_zero]
  norm_num

theorem ballCex7_step_pos : (ballCex7.move_step ctxCex).pos = ⟨2, 0⟩ := by
  have hdot : Vec3.dot (gravity_force ctxCex ballCex7)
      (ballCex7.rope_pivot - ⟨ballCex7.pos.x, ballCex7.pos.y, ballCex7.ball_height⟩)
        = 0 := by
    rw [ballCex7_height]
    show (0 : ℝ) * ((0 : ℝ) - 1) + (0 : ℝ) * ((0 : ℝ) - 0)
        + (-1 * 10 * 1) * ((2 : ℝ) - 2) = 0
    norm_num
  rw [(move_step_simple ctxCex ballCex7 rfl rfl hdot).2]
  ext
  · show (1 : ℝ) + (100 + (0 : ℝ) / 1 * (1 / 100)) * (1 / 100) = 2
    norm_num
  · show (0 : ℝ) + (0 + (0 : ℝ) / 1 * (1 / 100)) * (1 / 100) = 0
    norm_num

/-- C7 counterexample: from a valid state (horizontal distance to the pivot
exactly `rope_len`) with a large outward velocity, a single micro-step moves the
horizontal position to distance 2 from the pivot - twice the rope length, far
beyond any floating-point tolerance. The integrator never re-projects the
position onto the tether disc. -/
theorem claim_C7_counterexample :
    Vec2.distance ballCex7.pos ballCex7.rope_pivot.xy ≤ ballCex7.rope_len
      ∧ ballCex7.rope_len
        < Vec2.distance (ballCex7.move_step ctxCex).pos ballCex7.rope_pivot.xy := by
  constructor
  · show Vec2.distance ⟨1, 0⟩ ⟨0, 0⟩ ≤ (1 : ℝ)
    rw [dist_axis 1 (by norm_num)]
  · rw [ballCex7_step_pos]
    show (1 : ℝ) < Vec2.distance ⟨2, 0⟩ ⟨0, 0⟩
    rw [dist_axis 2 (by norm_num)]
    norm_num

/-- C7 amended: what a single micro-step can actually guarantee is the triangle
bound - the horizontal distance to the pivot grows by at most the updated
horizontal speed times the micro-step; the tether bound itself is not preserved. -/
theorem claim_C7_step_bound (physics_ctx : PhysicsContext) (b : Ball)
    (h : 0 ≤ physics_ctx.time_precision) :
    Vec2.distance (b.move_step physics_ctx).pos b.rope_pivot.xy
      ≤ Vec2.distance b.pos b.rope_pivot.xy
        + physics_ctx.time_precision
          * Vec2.length (b.move_step physics_ctx).velocity.xy := by
  have hpos : (b.move_step physics_ctx).pos
      = b.pos + ((b.move_step physics_ctx).velocity.xy.mulScalar
        physics_ctx.time_precision) := rfl
  rw [hpos]
  refine le_trans (Vec2.distance_add_le _ _ _) ?_
  rw [Vec2.length_mulScalar, abs_of_nonneg h]

theorem claim_C7_step_bound_witness :
    (0 : ℝ) ≤ ctxCex.time_precision
      ∧ Vec2.distance (ballCex7.move_step ctxCex).pos ballCex7.rope_pivot.xy
        ≤ Vec2.distance ballCex7.pos ballCex7.rope_pivot.xy
          + ctxCex.time_precision
            * Vec2.length (ballCex7.move_step ctxCex).velocity.xy :=
  ⟨by norm_num [ctxCex], claim_C7_step_bound ctxCex ballCex7 (by norm_num [ctxCex])⟩

end StepEvaluation

section TetherRejection

/-- Invalid state for C8: horizontal distance 2 from the pivot with rope length 1
(negative radicand in the height formula), plus a small horizontal velocity. -/
noncomputable def ballCex8 : Ball :=
  { mass := 1, pos := ⟨2, 0⟩, rope_len := 1, rope_pivot := ⟨0, 0, 2⟩
    velocity := ⟨1, 0, 0⟩, air_friction := 0, magnets := [], last_positions := [] }

theorem ballCex8_height : ballCex8.ball_height = 2 := by
  show (2 : ℝ) - Real.sqrt ((1 - Vec2.distance ⟨2, 0⟩ ⟨0, 0⟩)
      * (1 + Vec2.distance ⟨2, 0⟩ ⟨0, 0⟩)) = 2
  rw [dist_axis 2 (by norm_num),
    Real.sqrt_eq_zero'.mpr (by norm_num : ((1 : ℝ) - 2) * ((1 : ℝ) + 2) ≤ 0)]
  norm_num

theorem ballCex8_step_pos : (ballCex8.move_step ctxCex).pos = ⟨201 / 100, 0⟩ := by
  have hdot : Vec3.dot (gravity_force ctxCex ballCex8)
      (ballCex8.rope_pivot - ⟨ballCex8.pos.x, ballCex8.pos.y, ballCex8.ball_height⟩)
        = 0 := by
    rw [ballCex8_height]
    show (0 : ℝ) * ((0 : ℝ) - 2) + (0 : ℝ) * ((0 : ℝ) - 0)
        + (-1 * 10 * 1) * ((2 : ℝ) - 2) = 0
    norm_num
  rw [(move_step_simple ctxCex ballCex8 rfl rfl hdot).2]
  ext
  · show (2 : ℝ) + (1 + (0 : ℝ) / 1 * (1 / 100)) * (1 / 100) = 201 / 100
    norm_num
  · show (0 : ℝ) + (0 + (0 : ℝ) / 1 * (1 / 100)) * (1 / 100) = 0
    norm_num

/-- C8 counterexample: a state whose horizontal position is farther from the pivot
than the rope length (radicand negative) is NOT rejected: `move_step` computes the
height anyway (the sqrt of the negative radicand - NaN in the code, 0 in the real
model) and advances the position, instead of detecting the violation before
advancing and signalling it to the caller. -/
theorem claim_C8_counterexample :
    ballCex8.rope_len < Vec2.distance ballCex8.pos ballCex8.rope_pivot.xy
      ∧ (ballCex8.move_step ctxCex).pos ≠ ballCex8.pos := by
  constructor
  · show (1 : ℝ) < Vec2.distance ⟨2, 0⟩ ⟨0, 0⟩
    rw [dist_axis 2 (by norm_num)]
    norm_num
  · rw [ballCex8_step_pos]
    intro hcon
    have hx := congrArg Vec2.x hcon
    norm_num [ballCex8] at hx

/-- C8 amended: no rejection happens anywhere in the code; instead, every grid cell
position generated by `setup_square_scene` + `create_square_image` lies within the
rope length of the pivot's horizontal projection (in fact within a tenth of it), so
the batch path never constructs an invalid state. -/
theorem claim_C8_grid_valid (x px py : ℕ) (rope_len min_height : ℝ)
    (magnets : List Magnet) (hx : 0 < x) (hc : 0 < rope_len) (hpx : px < x)
    (hpy : py < x) :
    Vec2.distance
        (world_position_no_ctx ⟨(px : ℝ), (py : ℝ)⟩ ⟨(x : ℝ) / 2, (x : ℝ) / 2⟩
          (setup_square_scene x rope_len min_height magnets).2)
        ((setup_square_scene x rope_len min_height magnets).1.rope_pivot.xy)
      ≤ (setup_square_scene x rope_len min_height magnets).1.rope_len := by
  have hxR : (0 : ℝ) < (x : ℝ) := Nat.cast_pos.mpr hx
  have hs2 : (0 : ℝ) < Real.sqrt 2 := Real.sqrt_pos.mpr (by norm_num)
  have hs2sq : Real.sqrt 2 * Real.sqrt 2 = 2 := Real.mul_self_sqrt (by norm_num)
  have hppm : (0 : ℝ) < 10 * (x : ℝ) / (Real.sqrt 2 * rope_len) := by positivity
  show Vec2.distance
      (Vec2.divScalar (⟨(px : ℝ), (py : ℝ)⟩ - ⟨(x : ℝ) / 2, (x : ℝ) / 2⟩)
        (10 * (x : ℝ) / (Real.sqrt 2 * rope_len))) ⟨0, 0⟩ ≤ rope_len
  set ppm := 10 * (x : ℝ) / (Real.sqrt 2 * rope_len) with hppmdef
  set u := ((px : ℝ) - (x : ℝ) / 2) / ppm with hu
  set v := ((py : ℝ) - (x : ℝ) / 2) / ppm with hv
  show Real.sqrt ((u - 0) * (u - 0) + (v - 0) * (v - 0)) ≤ rope_len
  have hkey : ∀ t : ℕ, t < x → ((t : ℝ) - (x : ℝ) / 2) / ppm
      * (((t : ℝ) - (x : ℝ) / 2) / ppm) ≤ rope_len ^ 2 / 200 := by
    intro t ht
    have ht0 : (0 : ℝ) ≤ (t : ℝ) := Nat.cast_nonneg t
    have htx : (t : ℝ) ≤ (x : ℝ) := le_of_lt (Nat.cast_lt.mpr ht)
    have htsq : ((t : ℝ) - (x : ℝ) / 2) * ((t : ℝ) - (x : ℝ) / 2)
        ≤ ((x : ℝ) / 2) * ((x : ℝ) / 2) := by nlinarith
    have hppmsq : ppm * ppm = 100 * ((x : ℝ) * (x : ℝ)) / (2 * (rope_len * rope_len)) := by
      rw [hppmdef]
      rw [div_mul_div_comm]
      congr 1
      · ring
      · rw [show Real.sqrt 2 * rope_len * (Real.sqrt 2 * rope_len)
            = Real.sqrt 2 * Real.sqrt 2 * (rope_len * rope_len) by ring, hs2sq]
    rw [div_mul_div_comm, div_le_div_iff (by positivity) (by norm_num), hppmsq]
    have hcne : rope_len ≠ 0 := ne_of_gt hc
    have hrhs : rope_len ^ 2 * (100 * ((x : ℝ) * (x : ℝ)) / (2 * (rope_len * rope_len)))
        = 50 * ((x : ℝ) * (x : ℝ)) := by
      field_simp
      ring
    rw [hrhs]
    nlinarith [htsq]
  have hsum : (u - 0) * (u - 0) + (v - 0) * (v - 0) ≤ rope_len ^ 2 / 100 := by
    have h1 := hkey px hpx
    have h2 := hkey py hpy
    rw [← hu] at h1
    rw [← hv] at h2
    nlinarith
  refine le_trans (Real.sqrt_le_sqrt hsum) ?_
  rw [show rope_len ^ 2 / 100 = (rope_len / 10) * (rope_len / 10) by ring,
    Real.sqrt_mul_self (by positivity)]
  nlinarith

theorem claim_C8_grid_valid_witness :
    0 < 2000 ∧ (0 : ℝ) < 3 / 10 ∧ 0 < 2000 ∧ 0 < 2000
      ∧ Vec2.distance
          (world_position_no_ctx ⟨((0 : ℕ) : ℝ), ((0 : ℕ) : ℝ)⟩
            ⟨((2000 : ℕ) : ℝ) / 2, ((2000 : ℕ) : ℝ) / 2⟩
            (setup_square_scene 2000 (3 / 10) (3 / 100) []).2)
          ((setup_square_scene 2000 (3 / 10) (3 / 100) []).1.rope_pivot.xy)
        ≤ (setup_square_scene 2000 (3 / 10) (3 / 100) []).1.rope_len :=
  ⟨by norm_num, by norm_num, by norm_num, by norm_num,
    claim_C8_grid_valid 2000 0 0 (3 / 10) (3 / 100) [] (by norm_num) (by norm_num)
      (by norm_num) (by norm_num)⟩

end TetherRejection

section BatchLocality

theorem move_step_cfg (physics_ctx : PhysicsContext) (b : Ball) :
    (b.move_step physics_ctx).cfg = b.cfg := rfl

theorem move_step_congr (physics_ctx : PhysicsContext) {b b' : Ball}
    (hc : b.cfg = b'.cfg) (hp : b.pos = b'.pos) (hv : b.velocity = b'.velocity) :
    (b.move_step physics_ctx).pos = (b'.move_step physics_ctx).pos
      ∧ (b.move_step physics_ctx).velocity = (b'.move_step physics_ctx).velocity := by
  obtain ⟨m, p, rl, rp, ve, af, mg, lp⟩ := b
  obtain ⟨m2, p2, rl2, rp2, ve2, af2, mg2, lp2⟩ := b'
  simp only [Ball.cfg, BallCfg.mk.injEq] at hc
  obtain ⟨h1, h2, h3, h4, h5⟩ := hc
  simp only at hp hv
  subst h1
  subst h2
  subst h3
  subst h4
  subst h5
  subst hp
  subst hv
  exact ⟨rfl, rfl⟩

theorem iterate_congr (physics_ctx : PhysicsContext) :
    ∀ (n : ℕ) {b b' : Ball}, b.cfg = b'.cfg → b.pos = b'.pos →
      b.velocity = b'.velocity →
      ((Ball.move_step physics_ctx)^[n] b).cfg = b.cfg
        ∧ ((Ball.move_step physics_ctx)^[n] b).pos
          = ((Ball.move_step physics_ctx)^[n] b').pos
        ∧ ((Ball.move_step physics_ctx)^[n] b).velocity
          = ((Ball.move_step physics_ctx)^[n] b').velocity
  | 0, b, b', _, hp, hv => ⟨rfl, hp, hv⟩
  | Nat.succ n, b, b', hc, hp, hv => by
    rw [Function.iterate_succ_apply, Function.iterate_succ_apply]
    have hstep := move_step_congr physics_ctx hc hp hv
    have hc1 : (b.move_step physics_ctx).cfg = (b'.move_step physics_ctx).cfg := by
      rw [move_step_cfg, move_step_cfg]
      exact hc
    have ih := iterate_congr physics_ctx n hc1 hstep.1 hstep.2
    refine ⟨?_, ih.2.1, ih.2.2⟩
    rw [ih.1, move_step_cfg]

theorem settle_classify_congr (physics_ctx : PhysicsContext) (n : ℕ) {b b' : Ball}
    (hc : b.cfg = b'.cfg) (hp : b.pos = b'.pos) (hv : b.velocity = b'.velocity) :
    closest_magnet ((Ball.move_step physics_ctx)^[n] b).magnets
        ((Ball.move_step physics_ctx)^[n] b).pos
      = closest_magnet ((Ball.move_step physics_ctx)^[n] b').magnets
        ((Ball.move_step physics_ctx)^[n] b').pos := by
  obtain ⟨hcfg1, hpos, _⟩ := iterate_congr physics_ctx n hc hp hv
  obtain ⟨hcfg2, _, _⟩ := iterate_congr physics_ctx n (rfl : b'.cfg = b'.cfg) rfl rfl
  have hmag : ((Ball.move_step physics_ctx)^[n] b).magnets
      = ((Ball.move_step physics_ctx)^[n] b').magnets := by
    have hcfg : ((Ball.move_step physics_ctx)^[n] b).cfg
        = ((Ball.move_step physics_ctx)^[n] b').cfg := by
      rw [hcfg1, hcfg2, hc]
    exact congrArg BallCfg.magnets hcfg
  rw [hmag, hpos]

theorem cellStep_spec (physics_ctx : PhysicsContext) (x px py : ℕ) (b : Ball) :
    (cellStep physics_ctx x px py b).2 = classifyCell physics_ctx b.cfg x px py
      ∧ (cellStep physics_ctx x px py b).1.cfg = b.cfg := by
  constructor
  · simp only [cellStep, classifyCell, Ball.move_over_speed1]
    exact settle_classify_congr physics_ctx _ rfl rfl rfl
  · simp only [cellStep, Ball.move_over_speed1]
    exact (iterate_congr physics_ctx _ rfl rfl rfl).1

theorem colSeq_spec (physics_ctx : PhysicsContext) (x px : ℕ) :
    ∀ (pys : List ℕ) (b : Ball),
      (colSeq physics_ctx x px pys b).2
          = pys.map (fun py => classifyCell physics_ctx b.cfg x px py)
        ∧ (colSeq physics_ctx x px pys b).1.cfg = b.cfg
  | [], _ => ⟨rfl, rfl⟩
  | py :: pys, b => by
    have hcell := cellStep_spec physics_ctx x px py b
    have ih := colSeq_spec physics_ctx x px pys (cellStep physics_ctx x px py b).1
    simp only [colSeq, List.map_cons]
    constructor
    · rw [ih.1, hcell.1, hcell.2]
    · rw [ih.2, hcell.2]

theorem gridSeq_spec (physics_ctx : PhysicsContext) (x : ℕ) :
    ∀ (pxs : List ℕ) (b : Ball),
      (gridSeq physics_ctx x pxs b).2
          = pxs.map (fun px => (List.range x).map
              (fun py => classifyCell physics_ctx b.cfg x px py))
        ∧ (gridSeq physics_ctx x pxs b).1.cfg = b.cfg
  | [], _ => ⟨rfl, rfl⟩
  | px :: pxs, b => by
    have hcol := colSeq_spec physics_ctx x px (List.range x) b
    have ih := gridSeq_spec physics_ctx x pxs
      (colSeq physics_ctx x px (List.range x) b).1
    simp only [gridSeq, List.map_cons]
    constructor
    · rw [ih.1, hcol.1, hcol.2]
    · rw [ih.2, hcol.2]

end BatchLocality

/-- C9: the batch classification is deterministic and cell-local. Two runs of
`create_square_image` whose initial balls share the same configuration (the
threaded ball's scratch `pos`, `velocity` and trail may differ) produce identical
grids, and the grid equals a pure per-cell map in which every cell's index depends
only on the configuration, the magnet list and that cell's own pixel coordinates -
even though the code threads one mutable ball through all cells. -/
theorem claim_C9_batch_noninterference (physics_ctx : PhysicsContext) (x : ℕ)
    (b1 b2 : Ball) (h : b1.cfg = b2.cfg) :
    create_square_image x b1 physics_ctx = create_square_image x b2 physics_ctx
      ∧ create_square_image x b1 physics_ctx
        = (List.range x).map (fun px => (List.range x).map
            (fun py => classifyCell physics_ctx b1.cfg x px py)) := by
  have h1 := (gridSeq_spec physics_ctx x (List.range x) b1).1
  have h2 := (gridSeq_spec physics_ctx x (List.range x) b2).1
  constructor
  · simp only [create_square_image]
    rw [h1, h2, h]
  · simp only [create_square_image]
    rw [h1]

/-- Second witness ball: same configuration as `ballW` but a different scratch
position, exhibiting the two-run statement of C9. -/
noncomputable def ballW2 : Ball := { ballW with pos := ⟨1, 0⟩ }

theorem claim_C9_batch_noninterference_witness :
    ballW.cfg = ballW2.cfg
      ∧ (create_square_image 1 ballW PhysicsContext.new
            = create_square_image 1 ballW2 PhysicsContext.new
          ∧ create_square_image 1 ballW PhysicsContext.new
            = (List.range 1).map (fun px => (List.range 1).map
                (fun py => classifyCell PhysicsContext.new ballW.cfg 1 px py))) :=
  ⟨rfl, claim_C9_batch_noninterference PhysicsContext.new 1 ballW ballW2 rfl⟩

end Magpen
